import Mathlib

/-
  Verification of the kernel-based control-point optimizer of the
  Map_Enhancer_Wizard repository (src/code/classes/optimizer.py and
  src/code/utils/).  Python floats are modelled by exact rationals (ℚ),
  NumPy uint8 grids by ℕ-valued cell functions, and the mutable
  `Optimizer` object by explicit state records.  External OpenCV calls
  (cv2.kmeans, cv2.goodFeaturesToTrack, ...) are taken as oracle
  parameters; everything else is translated directly from the source.
-/

namespace MapEnhancer

/-- Python `int(round(x))`: round half to even (banker's rounding). -/
def iround (q : ℚ) : ℤ :=
  let f : ℤ := ⌊q⌋
  let frac : ℚ := q - (f : ℚ)
  if frac < 1/2 then f
  else if 1/2 < frac then f + 1
  else if f % 2 = 0 then f else f + 1

/-- Modelled from the spec: the source imports `utils.clamp.clamp`, whose
file is not among the sources.  The spec describes it as clamping a value
to an inclusive range (e.g. kernel size "clamped to [3,99]", point count
"clamped to [2, min(configuredMax, occupiedCellCount)]"), i.e.
`max(lo, min(hi, v))`, spelled here with kernel-reducible conditionals.
`clampQ` and `clampZ` model the same Python function at its ℚ- and
ℤ-valued call sites. -/
def clampQ (v lo hi : ℚ) : ℚ :=
  let m := if hi ≤ v then hi else v
  if m ≤ lo then lo else m

/-- Modelled from the spec: integer call sites of `utils.clamp.clamp`;
see `clampQ`. -/
def clampZ (v lo hi : ℤ) : ℤ :=
  let m := if hi ≤ v then hi else v
  if m ≤ lo then lo else m

/-- `np.clip(v, lo, hi)` = `min(hi, max(lo, v))`, spelled with
kernel-reducible conditionals. -/
def npclip (v lo hi : ℚ) : ℚ :=
  let m := if v ≤ lo then lo else v
  if hi ≤ m then hi else m

/-- Kernel-reducible `max` on ℤ (for NumPy window clipping). -/
def imax (a b : ℤ) : ℤ := if a ≤ b then b else a

/-- Kernel-reducible `min` on ℤ (for NumPy window clipping). -/
def imin (a b : ℤ) : ℤ := if a ≤ b then a else b

/-- `utils/safe_float.py`: `float(v)` with fallback to `default` when the
conversion raises.  The fallible conversion is modelled by an `Option`. -/
def safe_float (v : Option ℚ) (default : ℚ) : ℚ := v.getD default

/-- `utils/safe_int.py`: `int(v)` with fallback to `default` when the
conversion raises. -/
def safe_int (v : Option ℤ) (default : ℤ) : ℤ := v.getD default

/-- A 2-D position or force vector (Python float pair). -/
abbrev Vec2 := ℚ × ℚ

def vzero : Vec2 := (0, 0)

def vadd (a b : Vec2) : Vec2 := (a.1 + b.1, a.2 + b.2)

def vsub (a b : Vec2) : Vec2 := (a.1 - b.1, a.2 - b.2)

def vneg (a : Vec2) : Vec2 := (-a.1, -a.2)

def vsmul (c : ℚ) (a : Vec2) : Vec2 := (c * a.1, c * a.2)

/-- A 2-D NumPy array of shape `(h, w)`: `val y x` is the entry at row `y`,
column `x`.  Used both for grayscale maps (0..255) and 0/1 occupancies. -/
@[ext]
structure Occ where
  w : ℕ
  h : ℕ
  val : ℤ → ℤ → ℕ

/-- A `k×k` kernel patch; `val ky kx` is the entry at row `ky`, column `kx`. -/
structure Kern where
  k : ℕ
  val : ℤ → ℤ → ℕ

/- ------------------------------------------------------------------
   Corner-anchor parameter reading: Optimizer.get_ca_vals.
   Each raw tkinter variable is modelled as an `Option` value: `some q`
   when the entry text parses as a number, `none` when it is malformed.
   A malformed entry makes `tk.DoubleVar.get()` / `tk.IntVar.get()`
   raise `TclError` while the arguments of `safe_float` / `safe_int`
   are being evaluated, i.e. before either helper runs, so the failure
   propagates out of `get_ca_vals`; a successful read already yields a
   number, which `safe_float` / `safe_int` return unchanged.
   ------------------------------------------------------------------ -/

structure CARaw where
  angle_min : Option ℚ
  angle_max : Option ℚ
  quality : Option ℚ
  min_bcnt : Option ℤ
  min_bratio : Option ℚ

/-- The exception raised by a tkinter variable read on malformed entry
text. -/
inductive TkError where
  | TclError : TkError
deriving DecidableEq

/-- `Optimizer.get_ca_vals`: read the corner-anchor parameters, clamp
them to their ranges, and swap the angle band when entered reversed.
When any of the five `.get()` calls raises (malformed entry), the
exception propagates out of the function before the `safe_float` /
`safe_int` defaults can apply. -/
def get_ca_vals (r : CARaw) : Except TkError (ℚ × ℚ × ℚ × ℤ × ℚ) :=
  match r.angle_min, r.angle_max, r.quality, r.min_bcnt, r.min_bratio with
  | some amin0, some amax0, some quality0, some min_bcnt0, some min_bratio0 =>
    let amin := safe_float (some amin0) 85
    let amax := safe_float (some amax0) 95
    let quality := safe_float (some quality0) (5/100)
    let min_bcnt := safe_int (some min_bcnt0) 5
    let min_bratio := safe_float (some min_bratio0) (20/100)
    let quality := clampQ quality 0 1
    let min_bcnt := clampZ min_bcnt 0 1000000
    let min_bratio := clampQ min_bratio 0 1
    let amin := clampQ amin 0 180
    let amax := clampQ amax 0 180
    if amin > amax then Except.ok (amax, amin, quality, min_bcnt, min_bratio)
    else Except.ok (amin, amax, quality, min_bcnt, min_bratio)
  | _, _, _, _, _ => Except.error TkError.TclError

/-- What the spec's §7 sentence asks of a numeric-parameter read: fall back
to the last-known-good value on parse failure.  Stated from the spec's
words, for comparison with `safe_float`, which the source actually uses. -/
def lkgFallback (raw : Option ℚ) (lastGood : ℚ) : ℚ := raw.getD lastGood

/- ------------------------------------------------------------------
   Anchor cap and stride subsampling: tail of
   Optimizer.assign_anchor_points (lines 433-448), which postprocesses
   the list of confirmed corner candidates.
   ------------------------------------------------------------------ -/

/-- The anchor cap computed by `assign_anchor_points`:
`cap = max(8, int(0.18 * len(points)))` followed by `cap = min(cap, 250)`. -/
def anchorCap (npoints : ℕ) : ℕ :=
  min (max 8 (Int.toNat ⌊(18/100 : ℚ) * (npoints : ℚ)⌋)) 250

/-- The cap as the spec's sentence describes it: `min(18% of points, 250)`
(no floor of 8).  Stated from the spec's words, for comparison with
`anchorCap`, which the source computes. -/
def specCap (npoints : ℕ) : ℕ :=
  min (Int.toNat ⌊(18/100 : ℚ) * (npoints : ℚ)⌋) 250

/-- Order-preserving deduplication with a `seen` set:
`uniq = [c for c in confirmed if c not in seen and not seen.add(c)]`. -/
def dedupAux (seen : List ℕ) : List ℕ → List ℕ
  | [] => []
  | c :: rest => if c ∈ seen then dedupAux seen rest else c :: dedupAux (c :: seen) rest

def dedupFirst (l : List ℕ) : List ℕ := dedupAux [] l

/-- The stride-subsampling loop: `acc` starts at 0, each turn picks
`uniq[int(acc)]` and adds `step`. -/
def strideGo (uniq : List ℕ) (step : ℚ) : ℕ → ℚ → List ℕ
  | 0, _ => []
  | cnt + 1, acc => uniq.getD (Int.toNat ⌊acc⌋) 0 :: strideGo uniq step cnt (acc + step)

/-- `step = len(uniq) / float(cap)`; pick `cap` entries by stride. -/
def stridePick (uniq : List ℕ) (cap : ℕ) : List ℕ :=
  strideGo uniq ((uniq.length : ℚ) / (cap : ℚ)) cap 0

/-- Tail of `Optimizer.assign_anchor_points`: deduplicate the confirmed
candidates and subsample by stride when they exceed the cap. -/
def assignAnchorsFromConfirmed (npoints : ℕ) (confirmed : List ℕ) : Finset ℕ :=
  let cap := anchorCap npoints
  let uniq := dedupFirst confirmed
  if cap < uniq.length then (stridePick uniq cap).toFinset else uniq.toFinset

/- ------------------------------------------------------------------
   Neighbor graph, score and forces:
   Optimizer.build_neighbors / score / forces.
   ------------------------------------------------------------------ -/

/-- `Optimizer.build_neighbors`: `j` is a neighbor of `i` iff
`0 < dist² ≤ R²`. -/
def build_neighbors (P : List Vec2) (R : ℚ) : List (List ℕ) :=
  if P.length = 0 then []
  else
    let R2 := R * R
    (List.range P.length).map (fun i =>
      (List.range P.length).filter (fun j =>
        let dx := (P.getD j vzero).1 - (P.getD i vzero).1
        let dy := (P.getD j vzero).2 - (P.getD i vzero).2
        let d2 := dx * dx + dy * dy
        decide (0 < d2 ∧ d2 ≤ R2)))

/-- `Optimizer.score`: sum of squared pair distances; 0 when no pairs.
Pair indices reference valid points in every reachable session (spec I3),
so out-of-range reads are modelled by `getD`. -/
def score (pairs : List (ℕ × ℕ)) (P : List Vec2) : ℚ :=
  if pairs = [] then 0
  else pairs.foldl (fun s ij =>
    let d := vsub (P.getD ij.2 vzero) (P.getD ij.1 vzero)
    s + (d.1 * d.1 + d.2 * d.2)) 0

/-- `Optimizer.forces`: constraint attraction for each pair, then
Laplacian smoothing toward neighbors. -/
def forces (lc ls : ℚ) (pairs : List (ℕ × ℕ)) (neighbors : List (List ℕ))
    (P : List Vec2) : List Vec2 :=
  let F0 : List Vec2 := List.replicate P.length vzero
  let F1 := pairs.foldl (fun F ij =>
    let d := vsub (P.getD ij.2 vzero) (P.getD ij.1 vzero)
    let F := F.set ij.1 (vadd (F.getD ij.1 vzero) (vsmul lc d))
    F.set ij.2 (vadd (F.getD ij.2 vzero) (vsmul lc (vneg d)))) F0
  neighbors.enum.foldl (fun F inb =>
    if inb.2 = [] then F
    else
      let i := inb.1
      let sm := inb.2.foldl (fun acc j =>
        vadd acc (vsub (P.getD j vzero) (P.getD i vzero))) vzero
      F.set i (vadd (F.getD i vzero) (vsmul ls sm))) F1

/- ------------------------------------------------------------------
   Kernel extraction and composition:
   Optimizer.extract_kernel_at / compose_from_kernels.
   ------------------------------------------------------------------ -/

/-- `Optimizer.extract_kernel_at`: copy the `k×k` window of `occ`
centered at the rounded position into a zero-initialized patch, clipping
the window to the array bounds. -/
def extract_kernel_at (occ : Occ) (cx cy : ℚ) (k : ℕ) : Kern :=
  let r : ℤ := ((k / 2 : ℕ) : ℤ)
  let x0 : ℤ := iround cx - r
  let y0 : ℤ := iround cy - r
  let xs0 := imax 0 x0
  let ys0 := imax 0 y0
  let xs1 := imin (occ.w : ℤ) (x0 + (k : ℤ))
  let ys1 := imin (occ.h : ℤ) (y0 + (k : ℤ))
  { k := k
    val := fun ky kx =>
      if xs0 < xs1 ∧ ys0 < ys1 then
        let kx0 := xs0 - x0
        let ky0 := ys0 - y0
        let kx1 := kx0 + (xs1 - xs0)
        let ky1 := ky0 + (ys1 - ys0)
        if ky0 ≤ ky ∧ ky < ky1 ∧ kx0 ≤ kx ∧ kx < kx1 then
          occ.val (y0 + ky) (x0 + kx)
        else 0
      else 0 }

/-- Zero out the (bounds-clipped) `kk×kk` window of `g` centered at the
rounded position `p`; first loop body of `compose_from_kernels`. -/
def eraseAt (g : Occ) (kk : ℕ) (p : Vec2) : Occ :=
  let r : ℤ := ((kk / 2 : ℕ) : ℤ)
  let x0 := iround p.1 - r
  let y0 := iround p.2 - r
  let xs0 := imax 0 x0
  let ys0 := imax 0 y0
  let xs1 := imin (g.w : ℤ) (x0 + (kk : ℤ))
  let ys1 := imin (g.h : ℤ) (y0 + (kk : ℤ))
  if xs0 < xs1 ∧ ys0 < ys1 then
    { g with val := fun y x =>
        if ys0 ≤ y ∧ y < ys1 ∧ xs0 ≤ x ∧ x < xs1 then 0 else g.val y x }
  else g

/-- Write kernel `K`'s content into the (bounds-clipped) `kk×kk` window of
`g` centered at the rounded position `p`; second loop body of
`compose_from_kernels`. -/
def writeAt (g : Occ) (kk : ℕ) (p : Vec2) (K : Kern) : Occ :=
  let r : ℤ := ((kk / 2 : ℕ) : ℤ)
  let x0 := iround p.1 - r
  let y0 := iround p.2 - r
  let xs0 := imax 0 x0
  let ys0 := imax 0 y0
  let xs1 := imin (g.w : ℤ) (x0 + (kk : ℤ))
  let ys1 := imin (g.h : ℤ) (y0 + (kk : ℤ))
  if xs0 < xs1 ∧ ys0 < ys1 then
    { g with val := fun y x =>
        if ys0 ≤ y ∧ y < ys1 ∧ xs0 ≤ x ∧ x < xs1 then K.val (y - y0) (x - x0)
        else g.val y x }
  else g

/-- `k = kernels[0].shape[0] if kernels else 0`. -/
def kernOf (kernels : List Kern) : ℕ := (kernels.head?.map Kern.k).getD 0

/-- The erase pass: zero every kernel footprint at the given positions
(`for (px,py), K in zip(prev_positions, kernels)`). -/
def erasePass (kernels : List Kern) (g : Occ) (P : List Vec2) : Occ :=
  (P.zip kernels).foldl (fun g pk => eraseAt g (kernOf kernels) pk.1) g

/-- The write pass: write every kernel at the given positions, in index
order, so later indices win on overlap. -/
def writePass (kernels : List Kern) (g : Occ) (P : List Vec2) : Occ :=
  (P.zip kernels).foldl (fun g pk => writeAt g (kernOf kernels) pk.1 pk.2) g

/-- `Optimizer.compose_from_kernels`: copy the working grid, erase every
kernel footprint at the previous positions, then write every kernel at the
new positions. -/
def compose_from_kernels (prev_occ : Occ) (prev_positions new_positions : List Vec2)
    (kernels : List Kern) : Occ :=
  writePass kernels (erasePass kernels prev_occ prev_positions) new_positions

/-- Cell `(y, x)` lies in the bounds-clipped `kk×kk` window centered at
the rounded position `p` on a `w×h` grid (the windows zeroed/written by
`compose_from_kernels`). -/
def inWin (w h kk : ℕ) (p : Vec2) (y x : ℤ) : Prop :=
  let r : ℤ := ((kk / 2 : ℕ) : ℤ)
  let x0 := iround p.1 - r
  let y0 := iround p.2 - r
  let xs0 := imax 0 x0
  let ys0 := imax 0 y0
  let xs1 := imin (w : ℤ) (x0 + (kk : ℤ))
  let ys1 := imin (h : ℤ) (y0 + (kk : ℤ))
  ys0 ≤ y ∧ y < ys1 ∧ xs0 ≤ x ∧ x < xs1

instance (w h kk : ℕ) (p : Vec2) (y x : ℤ) : Decidable (inWin w h kk p y x) := by
  unfold inWin
  exact instDecidableAnd

/-- The working grid the spec's invariant I4 asserts: the base grid with
exactly the kernels' footprints overwritten at the current positions
(later indices win) and all other cells identical to the base.  Stated
from the spec's words, for comparison with what the code computes. -/
def specComposedGrid (kernels : List Kern) (base : Occ) (current : List Vec2) : Occ :=
  writePass kernels base current

/- ------------------------------------------------------------------
   The optimization driver:
   Optimizer.prepare / iterate_once / revert.
   ------------------------------------------------------------------ -/

/-- The numeric parameters read by the driver (tk variables, read at call
time). -/
structure Config where
  alpha : ℚ
  lc : ℚ
  ls : ℚ
  nb_radius : ℚ
  tol : ℚ
  kernel : ℤ

/-- A prepared session: base/working occupancies frozen, kernels captured,
neighbors built, initial score computed. -/
structure PState where
  base : Occ
  work : Occ
  points : List Vec2
  init : List Vec2
  prev : List Vec2
  pairs : List (ℕ × ℕ)
  kernels : List Kern
  neighbors : Option (List (List ℕ))
  last_score : Option ℚ
  anchors : Finset ℕ

/-- Kernel size at prepare time: `if k % 2 == 0: k += 1` then
`k = clamp(k, 3, 99)`. -/
def prepKernelSize (kv : ℤ) : ℤ :=
  let k := if kv % 2 = 0 then kv + 1 else kv
  clampZ k 3 99

/-- `Optimizer.prepare`: freeze the base occupancy (`base_map == 0`), copy
it to the working grid, snapshot `init`/`prev`, capture one kernel per
point, build neighbors and compute the initial score. -/
def prepare (cfg : Config) (baseM : Occ) (pts : List Vec2) (pairs : List (ℕ × ℕ))
    (anchors : Finset ℕ) : PState :=
  let baseOcc : Occ :=
    { w := baseM.w, h := baseM.h, val := fun y x => if baseM.val y x = 0 then 1 else 0 }
  let k := Int.toNat (prepKernelSize cfg.kernel)
  { base := baseOcc
    work := baseOcc
    points := pts
    init := pts
    prev := pts
    pairs := pairs
    kernels := pts.map (fun p => extract_kernel_at baseOcc p.1 p.2 k)
    neighbors := some (build_neighbors pts cfg.nb_radius)
    last_score := some (score pairs pts)
    anchors := anchors }

/-- The neighbor graph `iterate_once` works with: the cached one, rebuilt
inside `forces` when absent. -/
def neighborsNow (cfg : Config) (s : PState) : List (List ℕ) :=
  match s.neighbors with
  | some nb => nb
  | none => build_neighbors s.points cfg.nb_radius

/-- The candidate positions of one iteration: step by `α·F`, clip to the
grid bounds, force anchor indices back to their pre-step positions.  The
clip bounds come from the app's current map, which equals the frozen base
for a prepared session. -/
def proposedPositions (cfg : Config) (s : PState) : List Vec2 :=
  let P := s.points
  let F := forces cfg.lc cfg.ls s.pairs (neighborsNow cfg s) P
  let Pstep := (P.zip F).map (fun pf => vadd pf.1 (vsmul cfg.alpha pf.2))
  let Pclip := Pstep.map (fun p =>
    (npclip p.1 0 ((s.base.w : ℚ) - 1), npclip p.2 0 ((s.base.h : ℚ) - 1)))
  if s.anchors = ∅ then Pclip
  else (List.range Pclip.length).map (fun i =>
    if i ∈ s.anchors then P.getD i vzero else Pclip.getD i vzero)

/-- `Optimizer.iterate_once`: compute the proposed positions, then accept
iff `last_score` is unset or the new score improves on it by more than the
tolerance; on acceptance compose the kernels into the working grid and
commit positions and score.  Returns the new state plus
`(improved, new_score)`. -/
def iterate_once (cfg : Config) (s : PState) : PState × Bool × ℚ :=
  let nbs := neighborsNow cfg s
  let Pnew := proposedPositions cfg s
  let new_score := score s.pairs Pnew
  let improved := match s.last_score with
    | none => true
    | some l => decide (new_score < l - cfg.tol)
  if improved then
    ({ s with
        work := compose_from_kernels s.work s.prev Pnew s.kernels
        prev := Pnew
        points := Pnew
        last_score := some new_score
        neighbors := some nbs }, true, new_score)
  else
    ({ s with neighbors := some nbs }, false, new_score)

/-- `n` successive calls of `iterate_once` starting from `s`. -/
def iterN (cfg : Config) (s : PState) : ℕ → PState
  | 0 => s
  | n + 1 => (iterate_once cfg (iterN cfg s n)).1

/-- Every one of the first `n` iterations is accepted. -/
def AllAccepted (cfg : Config) (s : PState) (n : ℕ) : Prop :=
  ∀ t, t < n → (iterate_once cfg (iterN cfg s t)).2.1 = true

/-- `Optimizer.revert`: working grid back to the frozen base occupancy,
points and previous positions back to the initial points, score cleared.
(The source guards on `base_map is None`; a prepared session always has
one.) -/
def revert (s : PState) : PState :=
  { s with work := s.base, points := s.init, prev := s.init, last_score := none }

/- ------------------------------------------------------------------
   Generation: Optimizer.generate / occupied_coords.
   ------------------------------------------------------------------ -/

/-- The full mutable session state at generation time (`generate` may run
with or without an earlier prepared session). -/
structure Session where
  points : List Vec2
  init : List Vec2
  prev : List Vec2
  pairs : List (ℕ × ℕ)
  neighbors : Option (List (List ℕ))
  kernels : List Kern
  anchor_idx : Finset ℕ
  last_score : Option ℚ
  base_occ : Option Occ
  work_occ : Option Occ

inductive GenError where
  | NoMapLoaded : GenError
  | NoOccupiedCells : GenError
deriving DecidableEq

/-- `Optimizer.occupied_coords`: `(x, y)` coordinates of the black
(`== 0`) pixels, in NumPy row-major `nonzero` order. -/
def occupied_coords (src : Occ) : List (ℤ × ℤ) :=
  (List.range src.h).flatMap (fun y =>
    ((List.range src.w).filter (fun x => src.val y x = 0)).map
      (fun x => ((x : ℤ), (y : ℤ))))

/-- `Optimizer.generate`: sample control points on occupied pixels.
The random 50000-cap subsample and `cv2.kmeans` are external collaborators
and are modelled by the `kmeans` oracle (occupied coordinates and `N` in,
cluster centers out); corner detection inside `assign_anchor_points`
likewise by the `anchorsOf` oracle.  Returns the mutated session and an
error status; on an error path the session is returned as it was. -/
def generate (src : Option Occ) (nVar : ℤ)
    (kmeans : List (ℤ × ℤ) → ℕ → List Vec2)
    (anchorsOf : List Vec2 → Finset ℕ)
    (s : Session) : Session × Option GenError :=
  match src with
  | none => (s, some GenError.NoMapLoaded)
  | some m =>
    let pts := occupied_coords m
    if pts.length = 0 then (s, some GenError.NoOccupiedCells)
    else
      let N := Int.toNat (clampZ nVar 2 (imin 2000 (pts.length : ℤ)))
      let centers := kmeans pts N
      let centers := centers.map (fun c =>
        (npclip ((iround c.1 : ℤ) : ℚ) 0 ((m.w : ℚ) - 1),
         npclip ((iround c.2 : ℤ) : ℚ) 0 ((m.h : ℚ) - 1)))
      ({ points := centers
         init := centers
         prev := centers
         pairs := []
         neighbors := none
         kernels := []
         anchor_idx := anchorsOf centers
         last_score := none
         base_occ := none
         work_occ := none }, none)

/- ------------------------------------------------------------------
   A small concrete session used as a running example: a 1×5 map with
   obstacles at x = 0 and x = 4, two control points on them joined by one
   constraint pair, kernel size 3, step 1/4, no smoothing.
   ------------------------------------------------------------------ -/

/-- Concrete 2×2 all-white map: no occupied cells. -/
def blankMap : Occ := { w := 2, h := 2, val := fun _ _ => 255 }

/-- A concrete non-trivial session, to watch `generate` leave it alone. -/
def demoSession : Session :=
  { points := [(1, 1)]
    init := [(1, 1)]
    prev := [(1, 1)]
    pairs := [(0, 1)]
    neighbors := none
    kernels := []
    anchor_idx := {0}
    last_score := some 5
    base_occ := none
    work_occ := none }

/-- Concrete 1×5 grayscale map: black (occupied) at `x = 0` and `x = 4`. -/
def demoMap : Occ :=
  { w := 5, h := 1, val := fun y x => if y = 0 ∧ (x = 0 ∨ x = 4) then 0 else 255 }

def demoCfg : Config :=
  { alpha := 1/4, lc := 2, ls := 0, nb_radius := 0, tol := 1/1000, kernel := 3 }

/-- Prepared demo session: two paired points pulled together. -/
def demoPair : PState := prepare demoCfg demoMap [(0, 0), (4, 0)] [(0, 1)] ∅

/-- Prepared demo session with point 0 an anchor. -/
def demoAnchored : PState := prepare demoCfg demoMap [(0, 0), (4, 0)] [(0, 1)] {0}

/-- Prepared demo session with no pairs: score 0 and never improving. -/
def demoStill : PState := prepare demoCfg demoMap [(0, 0), (4, 0)] [] ∅

theorem clampQ_eq (v lo hi : ℚ) : clampQ v lo hi = max lo (min hi v) := by
  simp only [clampQ, min_def, max_def]
  split_ifs <;> first | rfl | linarith

theorem clampZ_eq (v lo hi : ℤ) : clampZ v lo hi = max lo (min hi v) := by
  simp only [clampZ]
  split_ifs <;> omega

theorem npclip_eq (v lo hi : ℚ) : npclip v lo hi = min hi (max lo v) := by
  simp only [npclip, min_def, max_def]
  split_ifs <;> first | rfl | linarith

theorem imax_eq (a b : ℤ) : imax a b = max a b := by
  simp only [imax]
  omega

theorem imin_eq (a b : ℤ) : imin a b = min a b := by
  simp only [imin]
  omega

theorem clampQ_le {v lo hi : ℚ} (h : lo ≤ hi) : clampQ v lo hi ≤ hi := by
  rw [clampQ_eq]
  simp only [max_le_iff]
  exact ⟨h, min_le_left _ _⟩

theorem le_clampQ (v lo hi : ℚ) : lo ≤ clampQ v lo hi := by
  rw [clampQ_eq]
  exact le_max_left _ _

theorem le_clampZ (v lo hi : ℤ) : lo ≤ clampZ v lo hi := by
  rw [clampZ_eq]
  exact le_max_left _ _

/- ------------------------------------------------------------------
   Helper lemmas about forces and one iteration.
   ------------------------------------------------------------------ -/

theorem foldl_length_inv {β : Type} (f : List Vec2 → β → List Vec2)
    (h : ∀ F b, (f F b).length = F.length) :
    ∀ (l : List β) (F : List Vec2), (l.foldl f F).length = F.length := by
  intro l
  induction l with
  | nil => intro F; rfl
  | cons b rest ih => intro F; rw [List.foldl_cons, ih, h]

theorem forces_length (lc ls : ℚ) (pairs : List (ℕ × ℕ))
    (neighbors : List (List ℕ)) (P : List Vec2) :
    (forces lc ls pairs neighbors P).length = P.length := by
  unfold forces
  rw [foldl_length_inv, foldl_length_inv, List.length_replicate]
  · intro F ij; simp [List.length_set]
  · intro F inb
    dsimp only
    split
    · rfl
    · simp [List.length_set]

theorem getD_range_map {α : Type} (n a : ℕ) (f : ℕ → α) (d : α) (h : a < n) :
    ((List.range n).map f).getD a d = f a := by
  rw [List.getD_eq_getElem?_getD, List.getElem?_map, List.getElem?_range h]
  rfl

theorem proposedPositions_length (cfg : Config) (s : PState) :
    (proposedPositions cfg s).length = s.points.length := by
  unfold proposedPositions
  dsimp only
  split
  · simp [List.length_zip, forces_length]
  · simp [List.length_zip, forces_length]

theorem proposedPositions_anchor (cfg : Config) (s : PState) (a : ℕ)
    (ha : a ∈ s.anchors) (hlen : a < s.points.length) :
    (proposedPositions cfg s).getD a vzero = s.points.getD a vzero := by
  unfold proposedPositions
  dsimp only
  rw [if_neg (by intro he; rw [he] at ha; exact absurd ha (Finset.not_mem_empty a))]
  rw [getD_range_map]
  · rw [if_pos ha]
  · simpa [List.length_zip, forces_length] using hlen

theorem iterate_result_accepted (cfg : Config) (s : PState)
    (h : (iterate_once cfg s).2.1 = true) :
    (iterate_once cfg s).1 =
      { s with
          work := compose_from_kernels s.work s.prev (proposedPositions cfg s) s.kernels
          prev := proposedPositions cfg s
          points := proposedPositions cfg s
          last_score := some (score s.pairs (proposedPositions cfg s))
          neighbors := some (neighborsNow cfg s) } := by
  unfold iterate_once at h ⊢
  dsimp only at h ⊢
  split at h
  · split
    · rfl
    · simp_all
  · simp at h

theorem iterate_result_rejected (cfg : Config) (s : PState)
    (h : (iterate_once cfg s).2.1 = false) :
    (iterate_once cfg s).1 = { s with neighbors := some (neighborsNow cfg s) } := by
  unfold iterate_once at h ⊢
  dsimp only at h ⊢
  split at h
  · simp at h
  · split
    · simp_all
    · rfl

theorem iterate_new_score (cfg : Config) (s : PState) :
    (iterate_once cfg s).2.2 = score s.pairs (proposedPositions cfg s) := by
  unfold iterate_once
  dsimp only
  split <;> rfl

theorem iterate_accepted_val (cfg : Config) (s : PState) :
    (iterate_once cfg s).2.1 =
      match s.last_score with
      | none => true
      | some l => decide (score s.pairs (proposedPositions cfg s) < l - cfg.tol) := by
  unfold iterate_once
  dsimp only
  split
  next h => exact h.symm
  next h => exact (Bool.not_eq_true _ |>.mp h).symm

/-- Claim C2: for every call to `iterate_once` and every anchor index `a`
that is a valid point index, the position `points[a]` is identical before
and after the call, whether or not the iteration is accepted. -/
theorem anchors_fixed (cfg : Config) (s : PState) (a : ℕ)
    (ha : a ∈ s.anchors) (hlen : a < s.points.length) :
    ((iterate_once cfg s).1).points.getD a vzero = s.points.getD a vzero := by
  cases hb : (iterate_once cfg s).2.1
  · rw [iterate_result_rejected cfg s hb]
  · rw [iterate_result_accepted cfg s hb]
    exact proposedPositions_anchor cfg s a ha hlen

/-- Claim C3: the proposed step is accepted iff `last_score` is unset or
the newly computed score is strictly below `last_score` minus the
tolerance; consequently every accepted iteration with a tracked score
satisfies `Score(points_after) < Score(points_before) - tol`. -/
theorem accept_iff (cfg : Config) (s : PState) :
    ((iterate_once cfg s).2.1 = true ↔
      s.last_score = none ∨
        ∃ l, s.last_score = some l ∧ (iterate_once cfg s).2.2 < l - cfg.tol) ∧
    (∀ l, s.last_score = some l → l = score s.pairs s.points →
      (iterate_once cfg s).2.1 = true →
      score s.pairs ((iterate_once cfg s).1).points <
        score s.pairs s.points - cfg.tol) := by
  have hval := iterate_accepted_val cfg s
  constructor
  · rw [hval, iterate_new_score]
    cases s.last_score with
    | none => simp
    | some l => simp [decide_eq_true_iff]
  · intro l hl hs hacc
    rw [iterate_result_accepted cfg s hacc]
    dsimp only
    rw [hval, hl] at hacc
    simp only [decide_eq_true_iff] at hacc
    rw [hs] at hacc
    exact hacc

/-- Claim C4: a rejected iteration leaves the control-point positions,
the previous positions, the last score and the working occupancy grid all
unchanged. -/
theorem reject_frame (cfg : Config) (s : PState)
    (h : (iterate_once cfg s).2.1 = false) :
    ((iterate_once cfg s).1).points = s.points ∧
    ((iterate_once cfg s).1).prev = s.prev ∧
    ((iterate_once cfg s).1).last_score = s.last_score ∧
    ((iterate_once cfg s).1).work = s.work := by
  rw [iterate_result_rejected cfg s h]
  exact ⟨rfl, rfl, rfl, rfl⟩

/- ------------------------------------------------------------------
   Pointwise behaviour of the erase and write passes.
   ------------------------------------------------------------------ -/

theorem eraseAt_w (g : Occ) (kk : ℕ) (p : Vec2) : (eraseAt g kk p).w = g.w := by
  unfold eraseAt
  dsimp only
  split <;> rfl

theorem eraseAt_h (g : Occ) (kk : ℕ) (p : Vec2) : (eraseAt g kk p).h = g.h := by
  unfold eraseAt
  dsimp only
  split <;> rfl

theorem writeAt_w (g : Occ) (kk : ℕ) (p : Vec2) (K : Kern) : (writeAt g kk p K).w = g.w := by
  unfold writeAt
  dsimp only
  split <;> rfl

theorem writeAt_h (g : Occ) (kk : ℕ) (p : Vec2) (K : Kern) : (writeAt g kk p K).h = g.h := by
  unfold writeAt
  dsimp only
  split <;> rfl

theorem eraseAt_val (g : Occ) (kk : ℕ) (p : Vec2) (y x : ℤ) :
    (eraseAt g kk p).val y x = if inWin g.w g.h kk p y x then 0 else g.val y x := by
  unfold eraseAt inWin
  dsimp only
  split
  next hg => rfl
  next hg =>
    rw [if_neg]
    intro hin
    exact hg ⟨by omega, by omega⟩

theorem writeAt_val_not (g : Occ) (kk : ℕ) (p : Vec2) (K : Kern) (y x : ℤ)
    (h : ¬ inWin g.w g.h kk p y x) :
    (writeAt g kk p K).val y x = g.val y x := by
  unfold writeAt
  unfold inWin at h
  dsimp only at h ⊢
  split
  next hg =>
    dsimp only
    rw [if_neg]
    intro hw
    exact h hw
  next hg => rfl

theorem eraseFold_w (kk : ℕ) (L : List (Vec2 × Kern)) :
    ∀ g : Occ, (L.foldl (fun g pk => eraseAt g kk pk.1) g).w = g.w := by
  induction L with
  | nil => intro g; rfl
  | cons pk rest ih => intro g; rw [List.foldl_cons, ih, eraseAt_w]

theorem eraseFold_h (kk : ℕ) (L : List (Vec2 × Kern)) :
    ∀ g : Occ, (L.foldl (fun g pk => eraseAt g kk pk.1) g).h = g.h := by
  induction L with
  | nil => intro g; rfl
  | cons pk rest ih => intro g; rw [List.foldl_cons, ih, eraseAt_h]

theorem writeFold_w (kk : ℕ) (L : List (Vec2 × Kern)) :
    ∀ g : Occ, (L.foldl (fun g pk => writeAt g kk pk.1 pk.2) g).w = g.w := by
  induction L with
  | nil => intro g; rfl
  | cons pk rest ih => intro g; rw [List.foldl_cons, ih, writeAt_w]

theorem writeFold_h (kk : ℕ) (L : List (Vec2 × Kern)) :
    ∀ g : Occ, (L.foldl (fun g pk => writeAt g kk pk.1 pk.2) g).h = g.h := by
  induction L with
  | nil => intro g; rfl
  | cons pk rest ih => intro g; rw [List.foldl_cons, ih, writeAt_h]

/-- The erase pass zeroes exactly the union of the footprints. -/
theorem eraseFold_val (kk : ℕ) (L : List (Vec2 × Kern)) :
    ∀ (g : Occ) (y x : ℤ),
      (L.foldl (fun g pk => eraseAt g kk pk.1) g).val y x =
        if ∃ pk ∈ L, inWin g.w g.h kk pk.1 y x then 0 else g.val y x := by
  induction L with
  | nil => intro g y x; simp
  | cons pk rest ih =>
    intro g y x
    rw [List.foldl_cons, ih, eraseAt_w, eraseAt_h, eraseAt_val]
    by_cases h1 : inWin g.w g.h kk pk.1 y x
    · by_cases h2 : ∃ q ∈ rest, inWin g.w g.h kk q.1 y x
      · rw [if_pos h2, if_pos ⟨pk, List.mem_cons_self pk rest, h1⟩]
      · rw [if_neg h2, if_pos h1, if_pos ⟨pk, List.mem_cons_self pk rest, h1⟩]
    · by_cases h2 : ∃ q ∈ rest, inWin g.w g.h kk q.1 y x
      · rw [if_pos h2]
        rcases h2 with ⟨q, hq, hw⟩
        rw [if_pos ⟨q, List.mem_cons_of_mem pk hq, hw⟩]
      · rw [if_neg h2, if_neg h1, if_neg]
        intro hc
        rcases hc with ⟨q, hq, hw⟩
        rcases List.mem_cons.mp hq with rfl | hq2
        · exact h1 hw
        · exact h2 ⟨q, hq2, hw⟩

/-- The write pass leaves every cell outside all footprints unchanged. -/
theorem writeFold_val_not (kk : ℕ) (L : List (Vec2 × Kern)) :
    ∀ (g : Occ) (y x : ℤ), (¬ ∃ pk ∈ L, inWin g.w g.h kk pk.1 y x) →
      (L.foldl (fun g pk => writeAt g kk pk.1 pk.2) g).val y x = g.val y x := by
  induction L with
  | nil => intro g y x _; rfl
  | cons pk rest ih =>
    intro g y x h
    rw [List.foldl_cons, ih, writeAt_val_not]
    · intro hw
      exact h ⟨pk, List.mem_cons_self pk rest, hw⟩
    · rw [writeAt_w, writeAt_h]
      intro hc
      rcases hc with ⟨q, hq, hw⟩
      exact h ⟨q, List.mem_cons_of_mem pk hq, hw⟩

/-- Erasing right after writing at the same positions is the same as just
erasing: everything the write pass touched lies inside the erased
footprints. -/
theorem eraseFold_writeFold (kk : ℕ) (L : List (Vec2 × Kern)) (g : Occ) :
    (L.foldl (fun g pk => eraseAt g kk pk.1)
        (L.foldl (fun g pk => writeAt g kk pk.1 pk.2) g)) =
      L.foldl (fun g pk => eraseAt g kk pk.1) g := by
  ext y x
  · rw [eraseFold_w, writeFold_w, eraseFold_w]
  · rw [eraseFold_h, writeFold_h, eraseFold_h]
  · rw [eraseFold_val, eraseFold_val, writeFold_w, writeFold_h]
    by_cases hc : ∃ pk ∈ L, inWin g.w g.h kk pk.1 y x
    · rw [if_pos hc, if_pos hc]
    · rw [if_neg hc, if_neg hc, writeFold_val_not kk L g y x hc]

/- ------------------------------------------------------------------
   Invariance of the frozen parts of the session along iterations, and
   the shape of the working grid after accepted runs.
   ------------------------------------------------------------------ -/

theorem iterate_frozen (cfg : Config) (s : PState) :
    (iterate_once cfg s).1.base = s.base ∧
    (iterate_once cfg s).1.init = s.init ∧
    (iterate_once cfg s).1.kernels = s.kernels ∧
    (iterate_once cfg s).1.pairs = s.pairs ∧
    (iterate_once cfg s).1.anchors = s.anchors := by
  unfold iterate_once
  dsimp only
  split <;> exact ⟨rfl, rfl, rfl, rfl, rfl⟩

theorem iterN_base (cfg : Config) (s : PState) (n : ℕ) :
    (iterN cfg s n).base = s.base := by
  induction n with
  | zero => rfl
  | succ n ih => rw [iterN, (iterate_frozen cfg (iterN cfg s n)).1, ih]

theorem iterN_init (cfg : Config) (s : PState) (n : ℕ) :
    (iterN cfg s n).init = s.init := by
  induction n with
  | zero => rfl
  | succ n ih => rw [iterN, (iterate_frozen cfg (iterN cfg s n)).2.1, ih]

theorem iterN_kernels (cfg : Config) (s : PState) (n : ℕ) :
    (iterN cfg s n).kernels = s.kernels := by
  induction n with
  | zero => rfl
  | succ n ih => rw [iterN, (iterate_frozen cfg (iterN cfg s n)).2.2.1, ih]

theorem iterN_prev_eq_points (cfg : Config) (s : PState) (n : ℕ)
    (hprev : s.prev = s.points) (hacc : AllAccepted cfg s n) :
    (iterN cfg s n).prev = (iterN cfg s n).points := by
  induction n with
  | zero => exact hprev
  | succ n ih =>
    have ha := hacc n (Nat.lt_succ_self n)
    show (iterate_once cfg (iterN cfg s n)).1.prev =
      (iterate_once cfg (iterN cfg s n)).1.points
    rw [iterate_result_accepted _ _ ha]

theorem erasePass_writePass (kernels : List Kern) (g : Occ) (P : List Vec2) :
    erasePass kernels (writePass kernels g P) P = erasePass kernels g P :=
  eraseFold_writeFold (kernOf kernels) (P.zip kernels) g

/-- After `n ≥ 1` accepted iterations the working grid is the starting
working grid with every kernel footprint along the visited position
snapshots `P_0 .. P_{n-1}` zeroed, and then the kernels written at the
current positions `P_n` in index order (later indices win).  In
particular a cell inside an abandoned footprint reads 0, not the base
value. -/
theorem work_after_accepted_runs (cfg : Config) (s0 : PState)
    (hprev : s0.prev = s0.points) (n : ℕ) (h1 : 1 ≤ n)
    (hacc : AllAccepted cfg s0 n) :
    (iterN cfg s0 n).work =
      writePass s0.kernels
        (((List.range n).map (fun t => (iterN cfg s0 t).points)).foldl
          (erasePass s0.kernels) s0.work)
        ((iterN cfg s0 n).points) := by
  induction n with
  | zero => exact absurd h1 (by omega)
  | succ n ih =>
    have ha := hacc n (Nat.lt_succ_self n)
    have haccn : AllAccepted cfg s0 n := fun t ht => hacc t (Nat.lt_succ_of_lt ht)
    have hpoints : (iterN cfg s0 (n + 1)).points =
        proposedPositions cfg (iterN cfg s0 n) := by
      show (iterate_once cfg (iterN cfg s0 n)).1.points = _
      rw [iterate_result_accepted _ _ ha]
    have hwork : (iterN cfg s0 (n + 1)).work =
        compose_from_kernels (iterN cfg s0 n).work (iterN cfg s0 n).prev
          (proposedPositions cfg (iterN cfg s0 n)) (iterN cfg s0 n).kernels := by
      show (iterate_once cfg (iterN cfg s0 n)).1.work = _
      rw [iterate_result_accepted _ _ ha]
    rw [hpoints, hwork, iterN_kernels, iterN_prev_eq_points cfg s0 n hprev haccn]
    rcases Nat.eq_zero_or_pos n with rfl | hn
    · rw [compose_from_kernels]
      rw [show List.range 1 = [0] from rfl]
      simp only [List.map_cons, List.map_nil, List.foldl_cons, List.foldl_nil]
      rw [show (iterN cfg s0 0).points = s0.points from rfl, ← hprev]
      rfl
    · rw [ih hn haccn, compose_from_kernels, erasePass_writePass]
      rw [List.range_succ, List.map_append, List.foldl_append]
      simp only [List.map_cons, List.map_nil, List.foldl_cons, List.foldl_nil]

theorem erasePass_val (kernels : List Kern) (g : Occ) (P : List Vec2) (y x : ℤ) :
    (erasePass kernels g P).val y x =
      if ∃ pk ∈ P.zip kernels, inWin g.w g.h (kernOf kernels) pk.1 y x then 0
      else g.val y x :=
  eraseFold_val (kernOf kernels) (P.zip kernels) g y x

theorem erasePass_w (kernels : List Kern) (g : Occ) (P : List Vec2) :
    (erasePass kernels g P).w = g.w :=
  eraseFold_w (kernOf kernels) (P.zip kernels) g

theorem erasePass_h (kernels : List Kern) (g : Occ) (P : List Vec2) :
    (erasePass kernels g P).h = g.h :=
  eraseFold_h (kernOf kernels) (P.zip kernels) g

theorem writePass_val_not (kernels : List Kern) (g : Occ) (P : List Vec2) (y x : ℤ)
    (h : ¬ ∃ pk ∈ P.zip kernels, inWin g.w g.h (kernOf kernels) pk.1 y x) :
    (writePass kernels g P).val y x = g.val y x :=
  writeFold_val_not (kernOf kernels) (P.zip kernels) g y x h

/- ------------------------------------------------------------------
   Evaluation of the demo session: the single pair pulls both points to
   x = 2, the step is accepted, and the erased footprints at x ∈ [0,2)
   and x ∈ [3,5) leave zeros behind.
   ------------------------------------------------------------------ -/

theorem demo_proposed : proposedPositions demoCfg demoPair = [(2, 0), (2, 0)] := by
  norm_num [proposedPositions, neighborsNow, demoPair, prepare, build_neighbors,
    demoCfg, demoMap, forces, npclip, vadd, vsub, vsmul, vneg, vzero,
    List.range_succ, List.filter_cons, List.getD_cons_zero, List.getD_cons_succ,
    Bool.and_eq_true, decide_eq_true_eq, List.enum, List.enumFrom, List.set,
    List.zip]

theorem demo_accepted : (iterate_once demoCfg demoPair).2.1 = true := by
  rw [iterate_accepted_val, demo_proposed]
  norm_num [demoPair, prepare, demoCfg, score, vsub, vzero,
    List.getD_cons_zero, List.getD_cons_succ]

theorem demo_allaccepted : AllAccepted demoCfg demoPair 1 := by
  intro t ht
  have h0 : t = 0 := by omega
  subst h0
  exact demo_accepted

theorem demo_new_not_cover :
    ¬ ∃ pk ∈ ([((2 : ℚ), (0 : ℚ)), (2, 0)]).zip demoPair.kernels,
      inWin 5 1 3 pk.1 0 0 := by
  norm_num [demoPair, prepare, demoCfg, demoMap, List.zip, List.zipWith,
    List.exists_mem_cons_iff, inWin, iround, imax, imin]

theorem demo_prev_cover :
    ∃ pk ∈ demoPair.prev.zip demoPair.kernels, inWin 5 1 3 pk.1 0 0 := by
  norm_num [demoPair, prepare, demoCfg, demoMap, List.zip, List.zipWith,
    List.exists_mem_cons_iff, inWin, iround, imax, imin]

theorem demo_rejected : (iterate_once demoCfg demoStill).2.1 = false := by
  rw [iterate_accepted_val]
  norm_num [demoStill, prepare, demoCfg, score]

/-- Witness for C2 at the demo session with point 0 anchored. -/
theorem anchors_fixed_witness :
    (0 ∈ demoAnchored.anchors ∧ 0 < demoAnchored.points.length) ∧
    ((iterate_once demoCfg demoAnchored).1).points.getD 0 vzero =
      demoAnchored.points.getD 0 vzero :=
  ⟨⟨by decide, by decide⟩,
    anchors_fixed demoCfg demoAnchored 0 (by decide) (by decide)⟩

/-- Witness for C3 at the demo session: the first iteration is accepted
and drops the score from 16 to 0, beating the tolerance. -/
theorem accept_iff_witness :
    demoPair.last_score = some (score demoPair.pairs demoPair.points) ∧
    (iterate_once demoCfg demoPair).2.1 = true ∧
    score demoPair.pairs ((iterate_once demoCfg demoPair).1).points <
      score demoPair.pairs demoPair.points - demoCfg.tol :=
  ⟨rfl, demo_accepted,
    (accept_iff demoCfg demoPair).2 (score demoPair.pairs demoPair.points) rfl rfl
      demo_accepted⟩

/-- Witness for C4 at the pair-free demo session, whose score can never
drop below the tolerance, so the iteration is rejected. -/
theorem reject_frame_witness :
    (iterate_once demoCfg demoStill).2.1 = false ∧
    ((iterate_once demoCfg demoStill).1).points = demoStill.points ∧
    ((iterate_once demoCfg demoStill).1).prev = demoStill.prev ∧
    ((iterate_once demoCfg demoStill).1).last_score = demoStill.last_score ∧
    ((iterate_once demoCfg demoStill).1).work = demoStill.work :=
  ⟨demo_rejected, reject_frame demoCfg demoStill demo_rejected⟩

/-- Claim C1, counterexample: in the demo session the first iteration is
accepted and moves both points to `x = 2`; the working grid then reads 0
at the vacated base-occupied cell `(0,0)`, while the composition the
claim asserts (base with kernels stamped only at the current positions)
reads the base value 1 there. -/
theorem working_grid_not_spec_composition :
    (iterate_once demoCfg demoPair).2.1 = true ∧
    ((iterate_once demoCfg demoPair).1).work.val 0 0 ≠
      (specComposedGrid demoPair.kernels demoPair.base
        ((iterate_once demoCfg demoPair).1).points).val 0 0 := by
  have hacc := demo_accepted
  have e1 : (compose_from_kernels demoPair.work demoPair.prev [(2, 0), (2, 0)]
      demoPair.kernels).val 0 0 = 0 := by
    rw [compose_from_kernels, writePass_val_not]
    · rw [erasePass_val, if_pos]
      exact demo_prev_cover
    · simp only [erasePass_w, erasePass_h]
      exact demo_new_not_cover
  have e2 : (specComposedGrid demoPair.kernels demoPair.base
      [((2 : ℚ), (0 : ℚ)), (2, 0)]).val 0 0 = 1 := by
    rw [specComposedGrid, writePass_val_not]
    · norm_num [demoPair, prepare, demoMap]
    · exact demo_new_not_cover
  refine ⟨hacc, ?_⟩
  rw [iterate_result_accepted demoCfg demoPair hacc]
  dsimp only
  rw [demo_proposed, e1, e2]
  norm_num

/-- Claim C1, amended: after `n ≥ 1` accepted iterations of a prepared
session, the working grid equals the frozen base occupancy with every
kernel footprint at each of the visited position snapshots
`P_0 .. P_{n-1}` zeroed and then the kernels written at the current
positions (later point indices win on overlap); a cell never covered by
any footprint keeps its base value, but a cell covered earlier and
abandoned reads 0 rather than the base value. -/
theorem working_grid_after_accepted_runs (cfg : Config) (baseM : Occ)
    (pts : List Vec2) (pairs : List (ℕ × ℕ)) (anchors : Finset ℕ) (n : ℕ)
    (h1 : 1 ≤ n)
    (hacc : AllAccepted cfg (prepare cfg baseM pts pairs anchors) n) :
    (iterN cfg (prepare cfg baseM pts pairs anchors) n).work =
      writePass (prepare cfg baseM pts pairs anchors).kernels
        (((List.range n).map
            (fun t => (iterN cfg (prepare cfg baseM pts pairs anchors) t).points)).foldl
          (erasePass (prepare cfg baseM pts pairs anchors).kernels)
          (prepare cfg baseM pts pairs anchors).base)
        ((iterN cfg (prepare cfg baseM pts pairs anchors) n).points) :=
  work_after_accepted_runs cfg (prepare cfg baseM pts pairs anchors) rfl n h1 hacc

/-- Witness for C1's amended theorem at the demo session with one
accepted iteration. -/
theorem working_grid_after_accepted_runs_witness :
    (1 ≤ 1 ∧ AllAccepted demoCfg demoPair 1) ∧
    (iterN demoCfg demoPair 1).work =
      writePass demoPair.kernels
        (((List.range 1).map (fun t => (iterN demoCfg demoPair t).points)).foldl
          (erasePass demoPair.kernels) demoPair.base)
        ((iterN demoCfg demoPair 1).points) :=
  ⟨⟨le_refl 1, demo_allaccepted⟩,
    working_grid_after_accepted_runs demoCfg demoMap [(0, 0), (4, 0)] [(0, 1)] ∅ 1
      (le_refl 1) demo_allaccepted⟩

/-- Claim C7: `revert()` after any number of accepted iterations restores
the working grid cell-for-cell to the frozen base occupancy and the
points to the initial points. -/
theorem revert_restores (cfg : Config) (baseM : Occ) (pts : List Vec2)
    (pairs : List (ℕ × ℕ)) (anchors : Finset ℕ) (n : ℕ)
    (hacc : AllAccepted cfg (prepare cfg baseM pts pairs anchors) n) :
    (revert (iterN cfg (prepare cfg baseM pts pairs anchors) n)).work =
      (prepare cfg baseM pts pairs anchors).base ∧
    (revert (iterN cfg (prepare cfg baseM pts pairs anchors) n)).points = pts := by
  constructor
  · show (iterN cfg (prepare cfg baseM pts pairs anchors) n).base = _
    rw [iterN_base]
  · show (iterN cfg (prepare cfg baseM pts pairs anchors) n).init = _
    rw [iterN_init]
    rfl

/-- Witness for C7 at the demo session with one accepted iteration. -/
theorem revert_restores_witness :
    AllAccepted demoCfg demoPair 1 ∧
    (revert (iterN demoCfg demoPair 1)).work = demoPair.base ∧
    (revert (iterN demoCfg demoPair 1)).points = [(0, 0), (4, 0)] :=
  ⟨demo_allaccepted,
    revert_restores demoCfg demoMap [(0, 0), (4, 0)] [(0, 1)] ∅ 1 demo_allaccepted⟩

/-- Claim C10, counterexample: at a configuration with a malformed
quality level, `get_ca_vals` raises `TclError` (the tk variable read
fails before `safe_float` runs) and returns no tuple at all, normalized
or otherwise. -/
theorem get_ca_vals_malformed_returns_no_tuple :
    get_ca_vals ⟨some 85, some 95, none, some 5, some (1/5)⟩ =
      Except.error TkError.TclError ∧
    (get_ca_vals ⟨some 85, some 95, none, some 5, some (1/5)⟩).toOption = none :=
  ⟨rfl, rfl⟩

/-- Claim C10, amended: for every configuration whose five stored values
parse (all tk variable reads succeed), `get_ca_vals` returns a normalized
tuple: angle-band min ≤ max (swapped when entered reversed), both angles
in `[0,180]`, quality level in `[0,1]`, minimum second-peak ratio in
`[0,1]`, and minimum second-peak count non-negative.  A malformed stored
value instead raises the read failure out of `get_ca_vals`. -/
theorem get_ca_vals_normalized_when_parsed (a0 a1 q0 : ℚ) (b0 : ℤ) (br0 : ℚ) :
    ∃ amin amax quality bcnt bratio,
      get_ca_vals ⟨some a0, some a1, some q0, some b0, some br0⟩ =
        Except.ok (amin, amax, quality, bcnt, bratio) ∧
      amin ≤ amax ∧ 0 ≤ amin ∧ amax ≤ 180 ∧
      0 ≤ quality ∧ quality ≤ 1 ∧ 0 ≤ bratio ∧ bratio ≤ 1 ∧ 0 ≤ bcnt := by
  unfold get_ca_vals
  dsimp only
  split
  next h =>
    exact ⟨_, _, _, _, _, rfl, le_of_lt h, le_clampQ _ _ _, clampQ_le (by norm_num),
      le_clampQ _ _ _, clampQ_le (by norm_num), le_clampQ _ _ _,
      clampQ_le (by norm_num), le_clampZ _ _ _⟩
  next h =>
    exact ⟨_, _, _, _, _, rfl, le_of_not_lt h, le_clampQ _ _ _, clampQ_le (by norm_num),
      le_clampQ _ _ _, clampQ_le (by norm_num), le_clampQ _ _ _,
      clampQ_le (by norm_num), le_clampZ _ _ _⟩

/-- Claim C6, counterexample: with a malformed angle-minimum whose
last-known-good value was 90, `get_ca_vals` raises `TclError` out of the
read — it neither returns the last-known-good 90 (what the claim
requires, `lkgFallback`) nor any other value. -/
theorem malformed_read_raises_not_last_known_good :
    get_ca_vals ⟨none, some 95, some (5/100), some 5, some (1/5)⟩ =
      Except.error TkError.TclError ∧
    lkgFallback none 90 = 90 :=
  ⟨rfl, rfl⟩

/-- Claim C6, amended: a malformed numeric configuration value makes the
tk variable read raise, and `get_ca_vals` propagates that parse failure
rather than falling back to the last-known-good value (or to the
hardcoded defaults): the `safe_float` / `safe_int` fallbacks cannot fire
on this path, because a read that succeeds already yields a number, which
they return unchanged. -/
theorem get_ca_vals_propagates_parse_failure :
    (∀ r : CARaw,
      r.angle_min = none ∨ r.angle_max = none ∨ r.quality = none ∨
        r.min_bcnt = none ∨ r.min_bratio = none →
      get_ca_vals r = Except.error TkError.TclError) ∧
    (∀ v d : ℚ, safe_float (some v) d = v) ∧
    (∀ v d : ℤ, safe_int (some v) d = v) := by
  refine ⟨?_, fun _ _ => rfl, fun _ _ => rfl⟩
  intro r h
  obtain ⟨a, b, c, d, e⟩ := r
  rcases a with _ | a0 <;> rcases b with _ | b0 <;> rcases c with _ | c0 <;>
    rcases d with _ | d0 <;> rcases e with _ | e0 <;> first | rfl | simp at h

/-- Witness for C6's amended theorem: a malformed angle-minimum entry. -/
theorem get_ca_vals_propagates_parse_failure_witness :
    ((⟨none, some 95, some (5/100), some 5, some (1/5)⟩ : CARaw).angle_min = none ∨
      (⟨none, some 95, some (5/100), some 5, some (1/5)⟩ : CARaw).angle_max = none ∨
      (⟨none, some 95, some (5/100), some 5, some (1/5)⟩ : CARaw).quality = none ∨
      (⟨none, some 95, some (5/100), some 5, some (1/5)⟩ : CARaw).min_bcnt = none ∨
      (⟨none, some 95, some (5/100), some 5, some (1/5)⟩ : CARaw).min_bratio = none) ∧
    get_ca_vals ⟨none, some 95, some (5/100), some 5, some (1/5)⟩ =
      Except.error TkError.TclError :=
  ⟨Or.inl rfl,
    get_ca_vals_propagates_parse_failure.1
      ⟨none, some 95, some (5/100), some 5, some (1/5)⟩ (Or.inl rfl)⟩

/-- Claim C8: requesting `generate` on a grid with zero occupied cells
signals `NoOccupiedCells` and returns the prior session state untouched
(the check precedes every mutation). -/
theorem generate_no_occupied (m : Occ) (nVar : ℤ)
    (kmeans : List (ℤ × ℤ) → ℕ → List Vec2) (anchorsOf : List Vec2 → Finset ℕ)
    (s : Session) (h : occupied_coords m = []) :
    generate (some m) nVar kmeans anchorsOf s = (s, some GenError.NoOccupiedCells) := by
  unfold generate
  dsimp only
  rw [h]
  rfl

/-- Witness for C8 on the all-white map and a non-trivial session. -/
theorem generate_no_occupied_witness :
    occupied_coords blankMap = [] ∧
    generate (some blankMap) 2000 (fun _ _ => []) (fun _ => ∅) demoSession =
      (demoSession, some GenError.NoOccupiedCells) :=
  ⟨by decide, generate_no_occupied blankMap 2000 _ _ demoSession (by decide)⟩

theorem extract_kernel_val (occ : Occ) (cx cy : ℚ) (k : ℕ) (hk : k % 2 = 1)
    (dy dx : ℤ)
    (hdy0 : -(((k / 2 : ℕ) : ℤ)) ≤ dy) (hdy1 : dy ≤ ((k / 2 : ℕ) : ℤ))
    (hdx0 : -(((k / 2 : ℕ) : ℤ)) ≤ dx) (hdx1 : dx ≤ ((k / 2 : ℕ) : ℤ)) :
    (extract_kernel_at occ cx cy k).val (((k / 2 : ℕ) : ℤ) + dy)
        (((k / 2 : ℕ) : ℤ) + dx) =
      if 0 ≤ iround cy + dy ∧ iround cy + dy < (occ.h : ℤ) ∧
          0 ≤ iround cx + dx ∧ iround cx + dx < (occ.w : ℤ)
      then occ.val (iround cy + dy) (iround cx + dx) else 0 := by
  unfold extract_kernel_at
  simp only [imax_eq, imin_eq]
  split_ifs <;> first | rfl | omega | (congr 1 <;> first | (congr 1 <;> omega) | omega)

/-- Claim C9: the prepare-time kernel size is odd and clamped to
`[3, 99]`, and the extracted `k×k` patch reads, at offset `(dx, dy)` from
its center, the base occupancy at the rounded point position plus
`(dx, dy)` when that cell is in bounds, and free (0) otherwise. -/
theorem kernel_extraction_spec :
    (∀ kv : ℤ, prepKernelSize kv % 2 = 1 ∧ 3 ≤ prepKernelSize kv ∧
      prepKernelSize kv ≤ 99) ∧
    (∀ (occ : Occ) (cx cy : ℚ) (k : ℕ), k % 2 = 1 →
      ∀ dy dx : ℤ, -(((k / 2 : ℕ) : ℤ)) ≤ dy → dy ≤ ((k / 2 : ℕ) : ℤ) →
        -(((k / 2 : ℕ) : ℤ)) ≤ dx → dx ≤ ((k / 2 : ℕ) : ℤ) →
        (extract_kernel_at occ cx cy k).val (((k / 2 : ℕ) : ℤ) + dy)
            (((k / 2 : ℕ) : ℤ) + dx) =
          if 0 ≤ iround cy + dy ∧ iround cy + dy < (occ.h : ℤ) ∧
              0 ≤ iround cx + dx ∧ iround cx + dx < (occ.w : ℤ)
          then occ.val (iround cy + dy) (iround cx + dx) else 0) :=
  ⟨fun kv => by simp only [prepKernelSize, clampZ]; split_ifs <;> omega,
    fun occ cx cy k hk dy dx h1 h2 h3 h4 =>
      extract_kernel_val occ cx cy k hk dy dx h1 h2 h3 h4⟩

/-- Witness for C9: kernel size 3 at the center of the demo map. -/
theorem kernel_extraction_spec_witness :
    ((3 : ℕ) % 2 = 1) ∧
    (extract_kernel_at demoMap 0 0 3).val (((3 / 2 : ℕ) : ℤ) + 0)
        (((3 / 2 : ℕ) : ℤ) + 0) =
      if 0 ≤ iround 0 + 0 ∧ iround 0 + 0 < (demoMap.h : ℤ) ∧
          0 ≤ iround 0 + 0 ∧ iround 0 + 0 < (demoMap.w : ℤ)
      then demoMap.val (iround 0 + 0) (iround 0 + 0) else 0 :=
  ⟨rfl, kernel_extraction_spec.2 demoMap 0 0 3 rfl 0 0 (by norm_num) (by norm_num)
    (by norm_num) (by norm_num)⟩

theorem mem_dedupAux : ∀ (l seen : List ℕ) (a : ℕ),
    a ∈ dedupAux seen l ↔ a ∈ l ∧ a ∉ seen := by
  intro l
  induction l with
  | nil => intro seen a; simp [dedupAux]
  | cons c rest ih =>
    intro seen a
    rw [dedupAux]
    split_ifs with hc
    · rw [ih]
      constructor
      · rintro ⟨h1, h2⟩
        exact ⟨List.mem_cons_of_mem c h1, h2⟩
      · rintro ⟨h1, h2⟩
        rcases List.mem_cons.mp h1 with rfl | h3
        · exact absurd hc h2
        · exact ⟨h3, h2⟩
    · rw [List.mem_cons, ih]
      constructor
      · rintro (rfl | ⟨h1, h2⟩)
        · exact ⟨List.mem_cons_self a rest, hc⟩
        · refine ⟨List.mem_cons_of_mem c h1, fun hs => h2 (List.mem_cons_of_mem c hs)⟩
      · rintro ⟨h1, h2⟩
        by_cases hac : a = c
        · exact Or.inl hac
        · have h3 : a ∈ rest := by
            rcases List.mem_cons.mp h1 with h | h
            · exact absurd h hac
            · exact h
          refine Or.inr ⟨h3, fun hs => ?_⟩
          rcases List.mem_cons.mp hs with h | h
          · exact hac h
          · exact h2 h

theorem nodup_dedupAux : ∀ (l seen : List ℕ), (dedupAux seen l).Nodup := by
  intro l
  induction l with
  | nil => intro seen; simp [dedupAux]
  | cons c rest ih =>
    intro seen
    rw [dedupAux]
    split_ifs with hc
    · exact ih seen
    · refine List.nodup_cons.mpr ⟨fun hmem => ?_, ih (c :: seen)⟩
      exact ((mem_dedupAux rest (c :: seen) c).mp hmem).2 (List.mem_cons_self c seen)


theorem nodup_dedupFirst (l : List ℕ) : (dedupFirst l).Nodup := nodup_dedupAux l []

theorem mem_dedupFirst (l : List ℕ) (a : ℕ) : a ∈ dedupFirst l ↔ a ∈ l := by
  rw [dedupFirst, mem_dedupAux]
  simp

theorem strideGo_eq_map (uniq : List ℕ) (step : ℚ) :
    ∀ (cnt : ℕ) (acc : ℚ),
      strideGo uniq step cnt acc =
        (List.range cnt).map (fun (t : ℕ) => uniq.getD (Int.toNat ⌊acc + (t : ℚ) * step⌋) 0) := by
  intro cnt
  induction cnt with
  | zero => intro acc; rfl
  | succ n ih =>
    intro acc
    rw [strideGo, ih (acc + step), List.range_succ_eq_map, List.map_cons, List.map_map]
    congr 1
    · norm_num
    · apply List.map_congr_left
      intro t _
      simp only [Function.comp_apply]
      congr 2
      push_cast
      ring_nf



theorem stride_index_lt (len cap : ℕ) (hcap : 0 < cap) (hlt : cap < len)
    (t : ℕ) (ht : t < cap) :
    Int.toNat ⌊(t : ℚ) * ((len : ℚ) / (cap : ℚ))⌋ < len := by
  have hcapQ : (0 : ℚ) < (cap : ℚ) := by exact_mod_cast hcap
  have hlenQ : (0 : ℚ) < (len : ℚ) := by
    have h0 : 0 < len := lt_trans hcap hlt
    exact_mod_cast h0
  have hpos : (0 : ℚ) < (len : ℚ) / (cap : ℚ) := div_pos hlenQ hcapQ
  have htQ : (t : ℚ) < (cap : ℚ) := by exact_mod_cast ht
  have h1 : (t : ℚ) * ((len : ℚ) / (cap : ℚ)) < (cap : ℚ) * ((len : ℚ) / (cap : ℚ)) :=
    mul_lt_mul_of_pos_right htQ hpos
  have h2 : (cap : ℚ) * ((len : ℚ) / (cap : ℚ)) = (len : ℚ) := by
    field_simp
  have h3 : ⌊(t : ℚ) * ((len : ℚ) / (cap : ℚ))⌋ < (len : ℤ) := by
    apply Int.floor_lt.mpr
    rw [h2] at h1
    exact_mod_cast h1
  omega

theorem stride_index_mono (len cap : ℕ) (hcap : 0 < cap) (hlt : cap < len)
    (t u : ℕ) (h : t < u) :
    Int.toNat ⌊(t : ℚ) * ((len : ℚ) / (cap : ℚ))⌋ <
      Int.toNat ⌊(u : ℚ) * ((len : ℚ) / (cap : ℚ))⌋ := by
  have hcapQ : (0 : ℚ) < (cap : ℚ) := by exact_mod_cast hcap
  have hstep : (1 : ℚ) ≤ (len : ℚ) / (cap : ℚ) := by
    rw [le_div_iff₀ hcapQ, one_mul]
    exact_mod_cast le_of_lt hlt
  have htu : (t : ℚ) + 1 ≤ (u : ℚ) := by exact_mod_cast h
  have step0 : (0 : ℚ) ≤ (len : ℚ) / (cap : ℚ) := le_trans zero_le_one hstep
  have h1 : (t : ℚ) * ((len : ℚ) / (cap : ℚ)) + 1 ≤
      (u : ℚ) * ((len : ℚ) / (cap : ℚ)) := by
    calc (t : ℚ) * ((len : ℚ) / (cap : ℚ)) + 1
        ≤ (t : ℚ) * ((len : ℚ) / (cap : ℚ)) + (len : ℚ) / (cap : ℚ) := by linarith
      _ = ((t : ℚ) + 1) * ((len : ℚ) / (cap : ℚ)) := by ring
      _ ≤ (u : ℚ) * ((len : ℚ) / (cap : ℚ)) := mul_le_mul_of_nonneg_right htu step0
  have h2 : ⌊(t : ℚ) * ((len : ℚ) / (cap : ℚ))⌋ + 1 ≤
      ⌊(u : ℚ) * ((len : ℚ) / (cap : ℚ))⌋ := by
    rw [← Int.floor_add_one]
    exact Int.floor_le_floor h1
  have h0 : (0 : ℤ) ≤ ⌊(t : ℚ) * ((len : ℚ) / (cap : ℚ))⌋ := by
    apply Int.floor_nonneg.mpr
    positivity
  omega

theorem stridePick_eq_map (uniq : List ℕ) (cap : ℕ) :
    stridePick uniq cap =
      (List.range cap).map (fun (t : ℕ) =>
        uniq.getD (Int.toNat ⌊(t : ℚ) * ((uniq.length : ℚ) / (cap : ℚ))⌋) 0) := by
  rw [stridePick, strideGo_eq_map]
  apply List.map_congr_left
  intro t _
  congr 2
  rw [zero_add]

theorem stridePick_length (uniq : List ℕ) (cap : ℕ) :
    (stridePick uniq cap).length = cap := by
  rw [stridePick_eq_map, List.length_map, List.length_range]

theorem stridePick_subset (uniq : List ℕ) (cap : ℕ) (hcap : 0 < cap)
    (hlt : cap < uniq.length) :
    ∀ a ∈ stridePick uniq cap, a ∈ uniq := by
  intro a ha
  rw [stridePick_eq_map] at ha
  rcases List.mem_map.mp ha with ⟨t, ht, rfl⟩
  have htc : t < cap := List.mem_range.mp ht
  have hidx := stride_index_lt uniq.length cap hcap hlt t htc
  rw [List.getD_eq_getElem _ _ hidx]
  exact List.getElem_mem hidx

theorem stridePick_nodup (uniq : List ℕ) (cap : ℕ) (hnd : uniq.Nodup)
    (hcap : 0 < cap) (hlt : cap < uniq.length) :
    (stridePick uniq cap).Nodup := by
  rw [stridePick_eq_map]
  refine List.Nodup.map_on ?_ (List.nodup_range cap)
  intro t ht u hu hfe
  have htc : t < cap := List.mem_range.mp ht
  have huc : u < cap := List.mem_range.mp hu
  rw [List.getD_eq_getElem _ _ (stride_index_lt uniq.length cap hcap hlt t htc),
    List.getD_eq_getElem _ _ (stride_index_lt uniq.length cap hcap hlt u huc)] at hfe
  have hidx := (List.Nodup.getElem_inj_iff hnd).mp hfe
  rcases Nat.lt_trichotomy t u with hlt2 | heq | hgt2
  · exact absurd hidx (Nat.ne_of_lt (stride_index_mono uniq.length cap hcap hlt t u hlt2))
  · exact heq
  · exact absurd hidx.symm (Nat.ne_of_lt (stride_index_mono uniq.length cap hcap hlt u t hgt2))

theorem anchorCap_ge8 (n : ℕ) : 8 ≤ anchorCap n := by
  unfold anchorCap
  omega


/-- Claim C5 (amended): the anchor cap is `min(max(8, int(0.18*N)), 250)`
(the claim omitted the floor of 8).  Every anchor is a confirmed
candidate; when the deduplicated confirmed candidates exceed the cap the
anchors are the uniform stride subsample and number exactly the cap; when
they do not, all confirmed candidates become anchors. -/
theorem anchor_subsample_amended (npoints : ℕ) (confirmed : List ℕ) :
    (∀ a ∈ assignAnchorsFromConfirmed npoints confirmed, a ∈ confirmed) ∧
    (anchorCap npoints < (dedupFirst confirmed).length →
      assignAnchorsFromConfirmed npoints confirmed =
        (stridePick (dedupFirst confirmed) (anchorCap npoints)).toFinset ∧
      (assignAnchorsFromConfirmed npoints confirmed).card = anchorCap npoints) ∧
    ((dedupFirst confirmed).length ≤ anchorCap npoints →
      assignAnchorsFromConfirmed npoints confirmed = confirmed.toFinset) := by
  have hcap8 := anchorCap_ge8 npoints
  have hcap0 : 0 < anchorCap npoints := by omega
  refine ⟨?_, ?_, ?_⟩
  · intro a ha
    unfold assignAnchorsFromConfirmed at ha
    dsimp only at ha
    split_ifs at ha with hgt
    · rw [List.mem_toFinset] at ha
      have hm := stridePick_subset _ _ hcap0 hgt a ha
      exact (mem_dedupFirst confirmed a).mp hm
    · rw [List.mem_toFinset] at ha
      exact (mem_dedupFirst confirmed a).mp ha
  · intro hgt
    have he : assignAnchorsFromConfirmed npoints confirmed =
        (stridePick (dedupFirst confirmed) (anchorCap npoints)).toFinset := by
      unfold assignAnchorsFromConfirmed
      dsimp only
      rw [if_pos hgt]
    refine ⟨he, ?_⟩
    rw [he, List.toFinset_card_of_nodup
      (stridePick_nodup _ _ (nodup_dedupFirst confirmed) hcap0 hgt), stridePick_length]
  · intro hle
    unfold assignAnchorsFromConfirmed
    dsimp only
    rw [if_neg (by omega)]
    ext a
    rw [List.mem_toFinset, List.mem_toFinset]
    exact mem_dedupFirst confirmed a

/-- Claim C5, counterexample: with 10 points and 5 confirmed candidates,
the claim's cap `min(18% of 10, 250) = 1` is exceeded, yet the code keeps
all 5 candidates because its real cap is `min(max(8, 1), 250) = 8`. -/
theorem anchors_cap_counterexample :
    specCap 10 < (dedupFirst [0, 1, 2, 3, 4]).length ∧
    (assignAnchorsFromConfirmed 10 [0, 1, 2, 3, 4]).card ≠ specCap 10 := by
  have h1 : specCap 10 = 1 := by
    rw [specCap]
    norm_num
  have h2 : anchorCap 10 = 8 := by
    rw [anchorCap]
    norm_num
  constructor
  · rw [h1]
    decide
  · rw [h1]
    unfold assignAnchorsFromConfirmed
    dsimp only
    rw [h2]
    decide

/-- Witness for C5's amended theorem: 100 points, 20 confirmed
candidates, cap 18. -/
theorem anchor_subsample_amended_witness :
    (anchorCap 100 < (dedupFirst (List.range 20)).length) ∧
    (assignAnchorsFromConfirmed 100 (List.range 20)).card = anchorCap 100 := by
  have h2 : anchorCap 100 = 18 := by
    rw [anchorCap]
    norm_num
    decide
  have hlt : anchorCap 100 < (dedupFirst (List.range 20)).length := by
    rw [h2]
    decide
  exact ⟨hlt, ((anchor_subsample_amended 100 (List.range 20)).2.1 hlt).2⟩

end MapEnhancer
